import Mathlib

/-!
Verification development for the Drujno group-buy storefront.

The repository ships a SQL schema (`src/init.sql`), vanilla-JS page renderers
(`src/unnamed/part_001`, `src/unnamed/part_002`) and an HTTP client
(`src/frontend/js/api.js`).  The backend engine (membership ledger, pricing,
group/order state machines) is not part of the repository; where a definition
below embeds such missing code it is modelled from the specification and its
doc comment starts with `Modelled from the spec:`.  Everything else is
translated directly from the SQL and JS sources.

Numeric conventions: SQL `DECIMAL(12,2)` money amounts and JS numbers are
modelled as `Rat`; SQL `INTEGER` columns that the code treats as signed
counters (`groups.current_count`) as `Int`; identifiers as `Nat`.
-/

namespace Drujno

/-! ## Pricing table -/

/-- One price tier as stored in `products.price_tiers`
(`init.sql` lines 114–116: `[{"min_quantity": 3, "price": 22000}, ...]`). -/
structure Tier where
  min_quantity : Nat
  price : Rat
deriving DecidableEq, Repr

/-- Modelled from the spec: the backend pricing function is absent from the
repository.  §4.1: `resolvePrice(product, participantCount)` scans the tier
list and keeps the price of the last tier whose
`min_quantity ≤ participantCount`, starting from `base_price`. -/
def resolvePrice (basePrice : Rat) (tiers : List Tier) (n : Nat) : Rat :=
  tiers.foldl (fun acc t => if t.min_quantity ≤ n then t.price else acc) basePrice

/-- Unfolding lemma for `resolvePrice` over a cons cell. -/
theorem resolvePrice_cons (basePrice : Rat) (t : Tier) (ts : List Tier) (n : Nat) :
    resolvePrice basePrice (t :: ts) n =
      resolvePrice (if t.min_quantity ≤ n then t.price else basePrice) ts n := by
  unfold resolvePrice
  rw [List.foldl_cons]

/-- Function `resolvePrice` returns the price of the last tier (in list order) whose
threshold is met, and the base price when none is. -/
theorem resolvePrice_eq_getLast (basePrice : Rat) (tiers : List Tier) (n : Nat) :
    resolvePrice basePrice tiers n =
      ((tiers.filter fun t => t.min_quantity ≤ n).getLast?).elim basePrice Tier.price := by
  induction tiers generalizing basePrice with
  | nil => rfl
  | cons t ts ih =>
    rw [resolvePrice_cons]
    by_cases h : t.min_quantity ≤ n
    · rw [if_pos h, ih]
      have hfil : (t :: ts).filter (fun t => decide (t.min_quantity ≤ n)) =
          t :: ts.filter (fun t => decide (t.min_quantity ≤ n)) := by
        simp [List.filter_cons, h]
      rw [hfil]
      cases hts : ts.filter (fun t => decide (t.min_quantity ≤ n)) with
      | nil => rfl
      | cons a l =>
        rw [List.getLast?_cons_cons]
        cases hx : (a :: l).getLast? with
        | none => simp at hx
        | some x => rfl
    · rw [if_neg h]
      have hfil : (t :: ts).filter (fun t => decide (t.min_quantity ≤ n)) =
          ts.filter (fun t => decide (t.min_quantity ≤ n)) := by
        simp [List.filter_cons, h]
      rw [hfil, ih]

/-- The result of `resolvePrice` is the base price or one of the tier prices. -/
theorem resolvePrice_mem (basePrice : Rat) (tiers : List Tier) (n : Nat) :
    resolvePrice basePrice tiers n = basePrice ∨
      resolvePrice basePrice tiers n ∈ tiers.map Tier.price := by
  induction tiers generalizing basePrice with
  | nil => exact Or.inl rfl
  | cons t ts ih =>
    rw [resolvePrice_cons]
    by_cases h : t.min_quantity ≤ n
    · rw [if_pos h]
      rcases ih t.price with h1 | h1
      · right; rw [h1]; simp
      · right; simp only [List.map_cons, List.mem_cons]; exact Or.inr h1
    · rw [if_neg h]
      rcases ih basePrice with h1 | h1
      · exact Or.inl h1
      · right; simp only [List.map_cons, List.mem_cons]; exact Or.inr h1

/-- When no tier threshold is met, `resolvePrice` falls back to the base price. -/
theorem resolvePrice_of_no_tier (basePrice : Rat) (tiers : List Tier) (n : Nat)
    (h : ∀ t ∈ tiers, ¬ t.min_quantity ≤ n) :
    resolvePrice basePrice tiers n = basePrice := by
  rw [resolvePrice_eq_getLast]
  have : tiers.filter (fun t => decide (t.min_quantity ≤ n)) = [] := by
    rw [List.filter_eq_nil_iff]
    intro t ht
    simpa using h t ht
  rw [this]
  rfl

/-- C2: `resolvePrice` returns the price of the last tier whose
`min_quantity ≤ participantCount`, and `base_price` when no tier qualifies —
in particular on the empty tier list, and whenever the participant count is
below the smallest `min_quantity` of a sorted tier list. -/
theorem resolvePrice_contract (basePrice : Rat) (tiers : List Tier) (n : Nat) :
    resolvePrice basePrice tiers n =
      ((tiers.filter fun t => t.min_quantity ≤ n).getLast?).elim basePrice Tier.price ∧
    resolvePrice basePrice [] n = basePrice ∧
    ((tiers.map Tier.min_quantity).Pairwise (· < ·) →
      ∀ t0, tiers.head? = some t0 → n < t0.min_quantity →
        resolvePrice basePrice tiers n = basePrice) := by
  refine ⟨resolvePrice_eq_getLast basePrice tiers n, rfl, ?_⟩
  intro hsort t0 hhead hlt
  apply resolvePrice_of_no_tier
  intro t ht
  cases tiers with
  | nil => cases ht
  | cons a l =>
    have ha : a = t0 := by simpa using hhead
    rcases List.mem_cons.mp ht with h1 | h1
    · rw [h1, ha]; omega
    · have hlt2 : a.min_quantity < t.min_quantity := by
        rw [List.map_cons] at hsort
        exact (List.pairwise_cons.mp hsort).1 t.min_quantity
          (List.mem_map_of_mem Tier.min_quantity h1)
      rw [ha] at hlt2
      omega

/-- Witness for C2: base price 25000 with tiers (3 → 22000), (5 → 19000); with
two participants the price stays at the base price. -/
theorem resolvePrice_contract_witness :
    resolvePrice 25000 [⟨3, 22000⟩, ⟨5, 19000⟩] 2 = 25000 :=
  (resolvePrice_contract 25000 [⟨3, 22000⟩, ⟨5, 19000⟩] 2).2.2 (by decide)
    ⟨3, 22000⟩ rfl (by decide)

/-- C3 counterexample: a tier list with strictly increasing `min_quantity` and
(vacuously) strictly decreasing prices on which `resolvePrice` is *not*
non-increasing in the participant count: a single tier priced above the base
price.  The claim's hypotheses say nothing about the tier prices relative to
`base_price`. -/
theorem resolvePrice_mono_counterexample :
    (([⟨3, 20⟩] : List Tier).map Tier.min_quantity).Pairwise (· < ·) ∧
    (([⟨3, 20⟩] : List Tier).map Tier.price).Pairwise (· > ·) ∧
    (2 : Nat) ≤ 3 ∧
    ¬ resolvePrice 10 [⟨3, 20⟩] 3 ≤ resolvePrice 10 [⟨3, 20⟩] 2 := by
  refine ⟨by simp, by simp, by norm_num, by decide⟩

/-- C3 (amended): when additionally the base price dominates the tier prices
(the whole chain `base_price :: prices` is non-increasing), `resolvePrice` is
monotonically non-increasing in the participant count. -/
theorem resolvePrice_mono (basePrice : Rat) (tiers : List Tier)
    (hsort : (tiers.map Tier.min_quantity).Pairwise (· < ·))
    (hprice : (basePrice :: tiers.map Tier.price).Pairwise (· ≥ ·))
    (n1 n2 : Nat) (hn : n1 ≤ n2) :
    resolvePrice basePrice tiers n2 ≤ resolvePrice basePrice tiers n1 := by
  induction tiers generalizing basePrice with
  | nil => exact le_refl _
  | cons t ts ih =>
    rw [resolvePrice_cons, resolvePrice_cons]
    by_cases h1 : t.min_quantity ≤ n1
    · have h2 : t.min_quantity ≤ n2 := le_trans h1 hn
      rw [if_pos h1, if_pos h2]
      apply ih
      · rw [List.map_cons] at hsort
        exact hsort.of_cons
      · rw [List.map_cons] at hprice
        exact hprice.of_cons
    · by_cases h2 : t.min_quantity ≤ n2
      · rw [if_neg h1, if_pos h2]
        have hts : ∀ t' ∈ ts, ¬ t'.min_quantity ≤ n1 := by
          intro t' ht' hle
          have hlt : t.min_quantity < t'.min_quantity := by
            rw [List.map_cons] at hsort
            exact (List.pairwise_cons.mp hsort).1 t'.min_quantity
              (List.mem_map_of_mem Tier.min_quantity ht')
          omega
        rw [resolvePrice_of_no_tier basePrice ts n1 hts]
        have hdom : ∀ q ∈ t.price :: ts.map Tier.price, basePrice ≥ q := by
          intro q hq
          rw [List.map_cons] at hprice
          exact (List.pairwise_cons.mp hprice).1 q hq
        rcases resolvePrice_mem t.price ts n2 with hm | hm
        · rw [hm]; exact hdom t.price (List.mem_cons_self _ _)
        · exact hdom _ (List.mem_cons_of_mem _ hm)
      · rw [if_neg h1, if_neg h2]
        apply ih
        · rw [List.map_cons] at hsort
          exact hsort.of_cons
        · rw [List.map_cons] at hprice
          exact List.Pairwise.sublist
            (((List.Sublist.refl _).cons _).cons₂ _) hprice

/-- Witness for C3 (amended): with base 25000 and tiers (3 → 22000),
(5 → 19000), five participants pay no more than three. -/
theorem resolvePrice_mono_witness :
    resolvePrice 25000 [⟨3, 22000⟩, ⟨5, 19000⟩] 5 ≤
      resolvePrice 25000 [⟨3, 22000⟩, ⟨5, 19000⟩] 3 :=
  resolvePrice_mono 25000 [⟨3, 22000⟩, ⟨5, 19000⟩] (by decide) (by decide) 3 5 (by decide)

/-! ## Discount badge (`calcDiscount`, `part_001` lines 187–192) -/

/-- A JavaScript value as passed to `calcDiscount`: a (finite) number,
a string, `null`, or `undefined`. -/
inductive JsVal where
  | num (q : Rat)
  | str (s : String)
  | null
  | undef
deriving DecidableEq, Repr

/-- JavaScript truthiness on `JsVal`: the number `0`, the empty string,
`null` and `undefined` are falsy. -/
def JsVal.truthy : JsVal → Bool
  | .num q => if q = 0 then false else true
  | .str s => if s = "" then false else true
  | .null => false
  | .undef => false

/-- Value of a run of decimal digits. -/
def digitsVal (cs : List Char) : Nat :=
  cs.foldl (fun a c => a * 10 + (c.toNat - '0'.toNat)) 0

/-- JS `parseFloat` on the decimal literals this app produces: optional
leading spaces and sign, digits, optional fraction, trailing junk ignored;
`none` models `NaN` (no leading digits at all).  Exponent forms and
`Infinity`, which never occur here, are not modelled. -/
def jsParseFloat (s : String) : Option Rat :=
  let cs := s.data.dropWhile (fun c => c = ' ')
  let signAndRest : Rat × List Char :=
    match cs with
    | '-' :: rest => (-1, rest)
    | '+' :: rest => (1, rest)
    | _ => (1, cs)
  let intPart := signAndRest.2.takeWhile Char.isDigit
  let rest1 := signAndRest.2.dropWhile Char.isDigit
  let fracPart : List Char :=
    match rest1 with
    | '.' :: rest2 => rest2.takeWhile Char.isDigit
    | _ => []
  if intPart = [] ∧ fracPart = [] then none
  else some (signAndRest.1 *
    ((digitsVal intPart : Rat) + (digitsVal fracPart : Rat) / (10 : Rat) ^ fracPart.length))

/-- JS `parseFloat` applied to a `JsVal`; `none` models `NaN`. -/
def jsToNumber : JsVal → Option Rat
  | .num q => some q
  | .str s => jsParseFloat s
  | .null => none
  | .undef => none

/-- JS `Math.round`: half-up rounding, `Math.round(x) = ⌊x + 0.5⌋`. -/
def jsRound (q : Rat) : Int := ⌊q + 1 / 2⌋

/-- Function `calcDiscount` from `part_001` lines 187–192: returns `0` when either
argument is falsy, otherwise `Math.round((1 - curr / orig) * 100)`.
`none` models a `NaN`/`Infinity` result (unparsable argument or division by
a parsed zero such as the string `"0"`). -/
def calcDiscount (originalPrice currentPrice : JsVal) : Option Int :=
  if !originalPrice.truthy || !currentPrice.truthy then some 0
  else
    match jsToNumber originalPrice, jsToNumber currentPrice with
    | some orig, some curr =>
        if orig = 0 then none
        else some (jsRound ((1 - curr / orig) * 100))
    | _, _ => none

/-- On two truthy numbers `calcDiscount` computes the rounded percentage. -/
theorem calcDiscount_num (orig curr : Rat) (ho : orig ≠ 0) (hc : curr ≠ 0) :
    calcDiscount (.num orig) (.num curr) = some (jsRound ((1 - curr / orig) * 100)) := by
  simp [calcDiscount, JsVal.truthy, jsToNumber, ho, hc]

/-- C10 counterexample: both arguments truthy and `currentPrice` strictly
above `originalPrice`, yet the result is `0`, not negative — the relative
overshoot `1001/1000` rounds to `-0%`. -/
theorem calcDiscount_counterexample :
    (1000 : Rat) < 1001 ∧
    calcDiscount (.num 1000) (.num 1001) = some 0 ∧
    ∀ z : Int, calcDiscount (.num 1000) (.num 1001) = some z → ¬ z < 0 := by
  have hval : calcDiscount (.num 1000) (.num 1001) = some 0 := by
    rw [calcDiscount_num 1000 1001 (by norm_num) (by norm_num)]
    congr 1
    unfold jsRound
    rw [show (1 - (1001 : Rat) / 1000) * 100 + 1 / 2 = 2 / 5 by norm_num]
    rw [Int.floor_eq_zero_iff]
    constructor <;> norm_num
  refine ⟨by norm_num, hval, ?_⟩
  intro z hz
  rw [hval] at hz
  injection hz with hz
  omega

/-- C10 (amended): `calcDiscount` returns `0` whenever either argument is
falsy (a price of `0`, `null`, `undefined`, the empty string), and otherwise
`Math.round((1 - curr/orig) * 100)`; the result is not clamped at `0`: it is
negative whenever `currentPrice / originalPrice` exceeds `1.005`, though
smaller overshoots may still round to `0`. -/
theorem calcDiscount_spec :
    (∀ a b : JsVal, a.truthy = false ∨ b.truthy = false → calcDiscount a b = some 0) ∧
    (∀ orig curr : Rat, orig ≠ 0 → curr ≠ 0 →
      calcDiscount (.num orig) (.num curr) = some (jsRound ((1 - curr / orig) * 100))) ∧
    (∀ orig curr : Rat, 0 < orig → 1 + 1 / 200 < curr / orig →
      ∃ z : Int, calcDiscount (.num orig) (.num curr) = some z ∧ z < 0) := by
  refine ⟨?_, fun orig curr ho hc => calcDiscount_num orig curr ho hc, ?_⟩
  · intro a b hab
    rcases hab with h | h <;> simp [calcDiscount, h]
  · intro orig curr ho hr
    have hcpos : 0 < curr := by
      by_contra hc
      push_neg at hc
      have : curr / orig ≤ 0 := div_nonpos_of_nonpos_of_nonneg hc (le_of_lt ho)
      nlinarith
    refine ⟨jsRound ((1 - curr / orig) * 100),
      calcDiscount_num orig curr (ne_of_gt ho) (ne_of_gt hcpos), ?_⟩
    have hq : (1 - curr / orig) * 100 + 1 / 2 < 0 := by nlinarith
    unfold jsRound
    have h0 : (1 - curr / orig) * 100 + 1 / 2 < ((0 : Int) : Rat) := by push_cast; linarith
    exact Int.floor_lt.mpr h0

/-- Witness for C10 (amended): `calcDiscount(25000, 0)` is `0` (falsy second
argument), `calcDiscount(25000, 19000) = 24`, and `calcDiscount(10000, 12000)`
is negative. -/
theorem calcDiscount_spec_witness :
    calcDiscount (.num 25000) (.num 0) = some 0 ∧
    calcDiscount (.num 25000) (.num 19000) = some (jsRound ((1 - 19000 / 25000) * 100)) ∧
    ∃ z : Int, calcDiscount (.num 10000) (.num 12000) = some z ∧ z < 0 :=
  ⟨calcDiscount_spec.1 (.num 25000) (.num 0) (Or.inr (by decide)),
   calcDiscount_spec.2.1 25000 19000 (by norm_num) (by norm_num),
   calcDiscount_spec.2.2 10000 12000 (by norm_num) (by norm_num)⟩

/-! ## HTTP client 401 handling (`api.js`, `request`, lines 84–140) -/

/-- A server response as seen by the client: HTTP status plus the parsed
JSON body (`none` when the body is not valid JSON); the body string stands
for the `detail`/`message` field used for error text. -/
structure HttpResponse where
  status : Nat
  body : Option String
deriving DecidableEq, Repr

/-- JS `response.ok`: HTTP status in the 2xx range. -/
def HttpResponse.ok (r : HttpResponse) : Bool :=
  decide (200 ≤ r.status) && decide (r.status < 300)

/-- The `ApiError` thrown by `api.js`: user-facing message and HTTP status. -/
structure ApiError where
  message : String
  status : Nat
deriving DecidableEq, Repr

/-- Function `handleResponse` from `api.js` lines 147–169: `204` yields `null`; an
unparsable body yields `null` on 2xx and an `ApiError` otherwise; a parsed
body is returned on 2xx and raised as an `ApiError` otherwise. -/
def handleResponse (r : HttpResponse) : Except ApiError (Option String) :=
  if r.status = 204 then .ok none
  else
    match r.body with
    | none => if r.ok then .ok none else .error ⟨"Ошибка сервера", r.status⟩
    | some d => if r.ok then .ok (some d) else .error ⟨d, r.status⟩

/-- Trace of one `request` run: its outcome, the token left in storage, and
the `Authorization` token attached to each fetch of the requested URL. -/
structure RequestTrace where
  outcome : Except ApiError (Option String)
  finalToken : Option String
  fetches : List (Option String)
deriving Repr

/-- Function `request` from `api.js` lines 84–140 as a function of its environment:
`tok0` is the token in storage, `resp1` the response to the first fetch,
`reauth` the outcome of `authorize()` (`some t`: a new token `t` was obtained
and saved; `none`: authorization failed), and `resp2` the response to the
retried fetch, consulted only when a retry happens.  On a 401 the client
removes the token, re-authorizes, and either retries once with the new token
or throws `ApiError` with status 401. -/
def request (tok0 : Option String) (resp1 : HttpResponse)
    (reauth : Option String) (resp2 : HttpResponse) : RequestTrace :=
  if resp1.status = 401 then
    match reauth with
    | some t =>
        { outcome := handleResponse resp2
          finalToken := some t
          fetches := [tok0, some t] }
    | none =>
        { outcome := .error ⟨"Требуется авторизация", 401⟩
          finalToken := none
          fetches := [tok0] }
  else
    { outcome := handleResponse resp1
      finalToken := tok0
      fetches := [tok0] }

/-- C9: on a 401 response the client drops the stored token and re-authorizes;
if that fails it throws `ApiError` 401 after a single fetch, and if it
succeeds it retries the original request exactly once with the new token —
a 401 on the retried request surfaces as an `ApiError` 401 without a further
retry. -/
theorem request_401_behavior (tok0 : Option String) (resp1 : HttpResponse)
    (reauth : Option String) (resp2 : HttpResponse)
    (h401 : resp1.status = 401) :
    (reauth = none →
      request tok0 resp1 reauth resp2 =
        { outcome := .error ⟨"Требуется авторизация", 401⟩
          finalToken := none
          fetches := [tok0] }) ∧
    (∀ t, reauth = some t →
      (request tok0 resp1 reauth resp2).fetches = [tok0, some t] ∧
      (request tok0 resp1 reauth resp2).finalToken = some t ∧
      (request tok0 resp1 reauth resp2).outcome = handleResponse resp2 ∧
      (resp2.status = 401 →
        ∃ e : ApiError, (request tok0 resp1 reauth resp2).outcome = .error e ∧
          e.status = 401)) := by
  constructor
  · intro h
    subst h
    simp [request, h401]
  · intro t ht
    subst ht
    refine ⟨by simp [request, h401], by simp [request, h401], by simp [request, h401], ?_⟩
    intro h2
    have hok : resp2.ok = false := by
      simp [HttpResponse.ok, h2]
    cases hb : resp2.body with
    | none =>
        exact ⟨⟨"Ошибка сервера", resp2.status⟩,
          by simp [request, h401, handleResponse, h2, hb, hok], h2⟩
    | some d =>
        exact ⟨⟨d, resp2.status⟩,
          by simp [request, h401, handleResponse, h2, hb, hok], h2⟩

/-- Witness for C9: stored token `"old"`, first response 401, re-authorization
yields `"new"`, retried response 401 again with body `"expired"`. -/
theorem request_401_behavior_witness :
    (request (some "old") ⟨401, none⟩ (some "new") ⟨401, some "expired"⟩).fetches =
      [some "old", some "new"] ∧
    ∃ e : ApiError,
      (request (some "old") ⟨401, none⟩ (some "new") ⟨401, some "expired"⟩).outcome =
        .error e ∧ e.status = 401 :=
  ⟨((request_401_behavior (some "old") ⟨401, none⟩ (some "new") ⟨401, some "expired"⟩
      rfl).2 "new" rfl).1,
   ((request_401_behavior (some "old") ⟨401, none⟩ (some "new") ⟨401, some "expired"⟩
      rfl).2 "new" rfl).2.2.2 rfl⟩

/-! ## Relational state (`init.sql`) and the engine operations

The SQL schema is embedded as lists of rows.  The trigger
`update_group_count` is translated from `init.sql`; the engine operations
(join/leave, group resolution, checkout, cancel, returns) are absent from
the repository and are modelled from the specification. -/

/-- Column `groups.status` (`init.sql` lines 155–158). -/
inductive GroupStatus where
  | active | completed | failed | cancelled
deriving DecidableEq, Repr

/-- Column `orders.status` (`init.sql` lines 267–269). -/
inductive OrderStatus where
  | pending | frozen | paid | processing | shipped | delivered | cancelled | refunded
deriving DecidableEq, Repr

/-- Column `returns.status` (`init.sql` lines 362–363). -/
inductive ReturnStatus where
  | pending | approved | rejected | awaiting_item | completed
deriving DecidableEq, Repr

/-- Column `returns.reason` (`init.sql` line 353). -/
inductive ReturnReason where
  | wrong_size | defect | not_as_described | changed_mind
deriving DecidableEq, Repr

/-- The delivery options offered at checkout (`part_002` renderCheckout). -/
inductive DeliveryType where
  | pickup | courier
deriving DecidableEq, Repr

/-- A `products` row (the columns the engine reads). -/
structure Product where
  id : Nat
  base_price : Rat
  price_tiers : List Tier
deriving DecidableEq, Repr

/-- A `groups` row (`init.sql` lines 149–172). -/
structure Group where
  id : Nat
  product_id : Nat
  creator_id : Nat
  status : GroupStatus
  min_participants : Nat
  max_participants : Nat
  current_count : Int
  deadline : Nat
deriving DecidableEq, Repr

/-- A `group_members` row (`init.sql` lines 188–203). -/
structure GroupMember where
  group_id : Nat
  user_id : Nat
deriving DecidableEq, Repr

/-- An `orders` row (`init.sql` lines 254–287, the columns the engine
writes). -/
structure Order where
  id : Nat
  user_id : Nat
  group_id : Nat
  address_id : Nat
  final_price : Rat
  delivery_cost : Rat
  total_amount : Rat
  status : OrderStatus
deriving DecidableEq, Repr

/-- A `returns` row (`init.sql` lines 347–376). -/
structure ReturnRequest where
  id : Nat
  order_id : Nat
  reason : ReturnReason
  description : String
  status : ReturnStatus
deriving DecidableEq, Repr

/-- The database state: the tables the engine touches, plus the sequence
counters backing the `BIGSERIAL` primary keys. -/
structure DB where
  products : List Product
  groups : List Group
  members : List GroupMember
  orders : List Order
  returns : List ReturnRequest
  nextProductId : Nat
  nextGroupId : Nat
  nextOrderId : Nat
  nextReturnId : Nat
deriving DecidableEq, Repr

/-- The empty database produced by `init.sql`. -/
def initDB : DB := ⟨[], [], [], [], [], 0, 0, 0, 0⟩

/-- The error taxonomy of §7 plus the join/leave failures of §4.2. -/
inductive EngineError where
  | notFound | groupNotActive | alreadyMember | groupFull | notAMember | stateError
deriving DecidableEq, Repr

deriving instance DecidableEq for Except

/-- Row lookup by primary key. -/
def findGroupL (l : List Group) (gid : Nat) : Option Group :=
  l.find? fun g => g.id = gid

/-- Row lookup by primary key. -/
def findOrderL (l : List Order) (oid : Nat) : Option Order :=
  l.find? fun o => o.id = oid

/-- Row lookup by primary key. -/
def findProductL (l : List Product) (pid : Nat) : Option Product :=
  l.find? fun p => p.id = pid

/-- Number of `group_members` rows of a group. -/
def countIn (l : List GroupMember) (gid : Nat) : Nat :=
  (l.filter fun m => m.group_id = gid).length

/-- Whether a `(group_id, user_id)` membership row exists. -/
def isMemberIn (l : List GroupMember) (gid uid : Nat) : Bool :=
  l.any fun m => m.group_id = gid && m.user_id = uid

/-- SQL `UPDATE groups SET ... WHERE id = gid`: apply `f` to the rows whose
primary key is `gid`. -/
def adjustGroups (gid : Nat) (f : Group → Group) (l : List Group) : List Group :=
  l.map fun g => if g.id = gid then f g else g

/-- The trigger `update_group_count` on INSERT (`init.sql` lines 523–529):
increment `current_count` of the new member's group. -/
def triggerMemberInsert (gid : Nat) (l : List Group) : List Group :=
  adjustGroups gid (fun g => { g with current_count := g.current_count + 1 }) l

/-- The trigger `update_group_count` on DELETE (`init.sql` lines 530–537):
decrement `current_count` of the removed member's group. -/
def triggerMemberDelete (gid : Nat) (l : List Group) : List Group :=
  adjustGroups gid (fun g => { g with current_count := g.current_count - 1 }) l

/-- Modelled from the spec: §4.3 completion condition, evaluated after every
successful join — an `active` group that reached `min_participants` becomes
`completed`. -/
def completionCheck (gid : Nat) (l : List Group) : List Group :=
  adjustGroups gid
    (fun g =>
      if g.status = GroupStatus.active ∧ (g.min_participants : Int) ≤ g.current_count
      then { g with status := .completed } else g) l

/-- SQL `UPDATE groups SET status = st WHERE id = gid`. -/
def setGroupStatus (gid : Nat) (st : GroupStatus) (l : List Group) : List Group :=
  adjustGroups gid (fun g => { g with status := st }) l

/-- SQL `UPDATE orders SET status = st WHERE id = oid`. -/
def setOrderStatus (oid : Nat) (st : OrderStatus) (l : List Order) : List Order :=
  l.map fun o => if o.id = oid then { o with status := st } else o

/-- Modelled from the spec: §4.2 `join(groupId, userId)` — requires the group
`active`, no existing membership (the `UNIQUE(group_id, user_id)` constraint,
`init.sql` line 202), and room below `max_participants`; on success the
membership row is inserted, the source trigger `update_group_count` fires,
and §4.3's completion check runs in the same transaction. -/
def runJoin (s : DB) (gid uid : Nat) : Except EngineError DB :=
  match findGroupL s.groups gid with
  | none => .error .notFound
  | some g =>
    if g.status ≠ GroupStatus.active then .error .groupNotActive
    else if isMemberIn s.members gid uid then .error .alreadyMember
    else if (g.max_participants : Int) ≤ g.current_count then .error .groupFull
    else .ok { s with
      members := ⟨gid, uid⟩ :: s.members
      groups := completionCheck gid (triggerMemberInsert gid s.groups) }

/-- Modelled from the spec: §4.2 `leave(groupId, userId)` — requires the group
`active` and the membership present; deletes the row, and the source trigger
`update_group_count` decrements the counter. -/
def runLeave (s : DB) (gid uid : Nat) : Except EngineError DB :=
  match findGroupL s.groups gid with
  | none => .error .notFound
  | some g =>
    if g.status ≠ GroupStatus.active then .error .groupNotActive
    else if ¬ isMemberIn s.members gid uid then .error .notAMember
    else .ok { s with
      members := s.members.eraseP fun m => m.group_id = gid && m.user_id = uid
      groups := triggerMemberDelete gid s.groups }

/-- Modelled from the spec: §4.3 cancellation — an explicit transition from
`active` to `cancelled`, available only before completion. -/
def runCancelGroup (s : DB) (gid : Nat) : Except EngineError DB :=
  match findGroupL s.groups gid with
  | none => .error .notFound
  | some g =>
    if g.status ≠ GroupStatus.active then .error .stateError
    else .ok { s with groups := setGroupStatus gid .cancelled s.groups }

/-- Modelled from the spec: §4.3/§4.5 deadline evaluation — a no-op (not an
error) on an already-terminal group; a due `active` group becomes `completed`
when `current_count ≥ min_participants` and `failed` otherwise. -/
def runDeadlineEval (s : DB) (gid now : Nat) : Except EngineError DB :=
  match findGroupL s.groups gid with
  | none => .error .notFound
  | some g =>
    if g.status ≠ GroupStatus.active then .ok s
    else if now < g.deadline then .ok s
    else if (g.min_participants : Int) ≤ g.current_count then
      .ok { s with groups := setGroupStatus gid .completed s.groups }
    else .ok { s with groups := setGroupStatus gid .failed s.groups }

/-- Delivery cost by type at checkout (`part_002` line 638:
`deliveryType === 'courier' ? 300 : 0`). -/
def deliveryCostFor : DeliveryType → Rat
  | .pickup => 0
  | .courier => 300

/-- Checkout total recomputation (`part_001` line 1072:
`parseFloat(g.current_price) + deliveryCost`). -/
def updateTotalAmount (currentPrice deliveryCost : Rat) : Rat :=
  currentPrice + deliveryCost

/-- The group's current unit price: `resolvePrice` of its product at the
current participant count. -/
def currentPriceOf (s : DB) (gid : Nat) : Option Rat :=
  match findGroupL s.groups gid with
  | none => none
  | some g =>
    match findProductL s.products g.product_id with
    | none => none
    | some p => some (resolvePrice p.base_price p.price_tiers g.current_count.toNat)

/-- Modelled from the spec: §4.4 `checkout` — allowed while the group is
`active` or just `completed`; locks `final_price` via `resolvePrice` at call
time, sets `total_amount = final_price + delivery_cost` (`init.sql` line
265), and creates the order in `pending`. -/
def runCreateOrder (s : DB) (gid uid addressId : Nat) (delType : DeliveryType) :
    Except EngineError DB :=
  match findGroupL s.groups gid with
  | none => .error .notFound
  | some g =>
    if g.status ≠ GroupStatus.active ∧ g.status ≠ GroupStatus.completed then
      .error .stateError
    else
      match findProductL s.products g.product_id with
      | none => .error .notFound
      | some p =>
        let price := resolvePrice p.base_price p.price_tiers g.current_count.toNat
        let dcost := deliveryCostFor delType
        .ok { s with
          orders :=
            ⟨s.nextOrderId, uid, gid, addressId, price, dcost, price + dcost, .pending⟩
              :: s.orders
          nextOrderId := s.nextOrderId + 1 }

/-- Modelled from the spec: §4.4 `cancel(orderId, byUser)` — permitted only
while the order is `pending` or `frozen`; the UI offers the cancel button in
exactly these states (`part_002` lines 825–828). -/
def runCancelOrder (s : DB) (oid : Nat) : Except EngineError DB :=
  match findOrderL s.orders oid with
  | none => .error .notFound
  | some o =>
    if o.status = OrderStatus.pending ∨ o.status = OrderStatus.frozen then
      .ok { s with orders := setOrderStatus oid .cancelled s.orders }
    else .error .stateError

/-- Modelled from the spec: §4.4 order transitions —
`pending → frozen → paid → processing → shipped → delivered`,
`pending|frozen → cancelled`, `delivered → refunded`. -/
def allowedOrderTransition : OrderStatus → OrderStatus → Bool
  | .pending, .frozen => true
  | .frozen, .paid => true
  | .paid, .processing => true
  | .processing, .shipped => true
  | .shipped, .delivered => true
  | .pending, .cancelled => true
  | .frozen, .cancelled => true
  | .delivered, .refunded => true
  | _, _ => false

/-- Modelled from the spec: an order/payment state-machine step along the
§4.4 transition table. -/
def runAdvanceOrder (s : DB) (oid : Nat) (st : OrderStatus) : Except EngineError DB :=
  match findOrderL s.orders oid with
  | none => .error .notFound
  | some o =>
    if allowedOrderTransition o.status st then
      .ok { s with orders := setOrderStatus oid st s.orders }
    else .error .stateError

/-- Operation `createReturn` (§4.6): the UI offers return creation only on a
`delivered` order (`part_001` line 1333) and the new row takes the schema
default `status = 'pending'` (`init.sql` line 363); the `delivered` gate on
the write path is modelled from the spec. -/
def runCreateReturn (s : DB) (oid : Nat) (reason : ReturnReason) (descr : String) :
    Except EngineError DB :=
  match findOrderL s.orders oid with
  | none => .error .notFound
  | some o =>
    if o.status ≠ OrderStatus.delivered then .error .stateError
    else .ok { s with
      returns := ⟨s.nextReturnId, oid, reason, descr, .pending⟩ :: s.returns
      nextReturnId := s.nextReturnId + 1 }

/-- SQL `INSERT INTO products`: a new catalog row. -/
def runCreateProduct (s : DB) (basePrice : Rat) (tiers : List Tier) :
    Except EngineError DB :=
  .ok { s with
    products := ⟨s.nextProductId, basePrice, tiers⟩ :: s.products
    nextProductId := s.nextProductId + 1 }

/-- SQL `INSERT INTO groups`: a new group starts `active` with
`current_count = 0` (`init.sql` lines 158–163); the product reference must
exist (foreign key). -/
def runCreateGroup (s : DB) (productId creatorId minP maxP deadline : Nat) :
    Except EngineError DB :=
  if (findProductL s.products productId).isNone then .error .notFound
  else .ok { s with
    groups :=
      ⟨s.nextGroupId, productId, creatorId, .active, minP, maxP, 0, deadline⟩
        :: s.groups
    nextGroupId := s.nextGroupId + 1 }

/-- The operations that can hit the database. -/
inductive Op where
  | createProduct (basePrice : Rat) (tiers : List Tier)
  | createGroup (productId creatorId minP maxP deadline : Nat)
  | join (gid uid : Nat)
  | leave (gid uid : Nat)
  | cancelGroup (gid : Nat)
  | deadlineEval (gid now : Nat)
  | createOrder (gid uid addressId : Nat) (delType : DeliveryType)
  | cancelOrder (oid : Nat)
  | advanceOrder (oid : Nat) (st : OrderStatus)
  | createReturn (oid : Nat) (reason : ReturnReason) (descr : String)
deriving DecidableEq, Repr

/-- Dispatch an operation. -/
def runOp (s : DB) : Op → Except EngineError DB
  | .createProduct b t => runCreateProduct s b t
  | .createGroup pid cid mn mx dl => runCreateGroup s pid cid mn mx dl
  | .join gid uid => runJoin s gid uid
  | .leave gid uid => runLeave s gid uid
  | .cancelGroup gid => runCancelGroup s gid
  | .deadlineEval gid now => runDeadlineEval s gid now
  | .createOrder gid uid aid dt => runCreateOrder s gid uid aid dt
  | .cancelOrder oid => runCancelOrder s oid
  | .advanceOrder oid st => runAdvanceOrder s oid st
  | .createReturn oid r d => runCreateReturn s oid r d

/-- A failed operation rolls back (leaves the database unchanged); a
successful one commits. -/
def applyOp (s : DB) (op : Op) : DB :=
  match runOp s op with
  | .ok s' => s'
  | .error _ => s

/-- The database state after a sequence of operations from the freshly
initialized schema. -/
def reach (ops : List Op) : DB :=
  ops.foldl applyOp initDB

/-! ### Lemmas about the row helpers -/

theorem findGroupL_eq {l : List Group} {gid : Nat} {g : Group}
    (h : findGroupL l gid = some g) : g ∈ l ∧ g.id = gid := by
  refine ⟨List.mem_of_find?_eq_some h, ?_⟩
  simpa using List.find?_some h

theorem findOrderL_eq {l : List Order} {oid : Nat} {o : Order}
    (h : findOrderL l oid = some o) : o ∈ l ∧ o.id = oid := by
  refine ⟨List.mem_of_find?_eq_some h, ?_⟩
  simpa using List.find?_some h

theorem countIn_cons (m : GroupMember) (l : List GroupMember) (gid : Nat) :
    countIn (m :: l) gid = countIn l gid + if m.group_id = gid then 1 else 0 := by
  unfold countIn
  rw [List.filter_cons]
  by_cases h : m.group_id = gid
  · simp [h]
  · simp [h]

theorem countIn_append (l1 l2 : List GroupMember) (gid : Nat) :
    countIn (l1 ++ l2) gid = countIn l1 gid + countIn l2 gid := by
  unfold countIn
  rw [List.filter_append, List.length_append]

theorem isMemberIn_iff (l : List GroupMember) (gid uid : Nat) :
    isMemberIn l gid uid = true ↔ ∃ m ∈ l, m.group_id = gid ∧ m.user_id = uid := by
  unfold isMemberIn
  simp [List.any_eq_true]

theorem isMemberIn_eq_false (l : List GroupMember) (gid uid : Nat) :
    isMemberIn l gid uid = false ↔
      ∀ m ∈ l, ¬ (m.group_id = gid ∧ m.user_id = uid) := by
  rw [← Bool.not_eq_true, isMemberIn_iff]
  constructor
  · intro h m hm hcon
    exact h ⟨m, hm, hcon⟩
  · rintro h ⟨m, hm, hc⟩
    exact h m hm hc

theorem mem_adjustGroups {gid : Nat} {f : Group → Group} {l : List Group} {g' : Group} :
    g' ∈ adjustGroups gid f l ↔
      ∃ g0 ∈ l, (¬ g0.id = gid ∧ g' = g0) ∨ (g0.id = gid ∧ g' = f g0) := by
  unfold adjustGroups
  rw [List.mem_map]
  constructor
  · rintro ⟨g0, hg0, rfl⟩
    refine ⟨g0, hg0, ?_⟩
    by_cases h : g0.id = gid
    · exact Or.inr ⟨h, by rw [if_pos h]⟩
    · exact Or.inl ⟨h, by rw [if_neg h]⟩
  · rintro ⟨g0, hg0, ⟨h, heq⟩ | ⟨h, heq⟩⟩
    · exact ⟨g0, hg0, by rw [if_neg h]; exact heq.symm⟩
    · exact ⟨g0, hg0, by rw [if_pos h]; exact heq.symm⟩

theorem adjustGroups_exists_same_id {gid : Nat} {f : Group → Group} {l : List Group}
    (hf : ∀ g, (f g).id = g.id) {g0 : Group} (h : g0 ∈ l) :
    ∃ g' ∈ adjustGroups gid f l, g'.id = g0.id := by
  refine ⟨if g0.id = gid then f g0 else g0, List.mem_map_of_mem _ h, ?_⟩
  split
  · exact hf g0
  · rfl

theorem adjustGroups_map_id {gid : Nat} {f : Group → Group} {l : List Group}
    (hf : ∀ g, (f g).id = g.id) :
    (adjustGroups gid f l).map Group.id = l.map Group.id := by
  unfold adjustGroups
  rw [List.map_map]
  apply List.map_congr_left
  intro g _
  simp only [Function.comp_apply]
  split
  · exact hf g
  · rfl

theorem adjustGroups_adjustGroups {gid : Nat} {f1 f2 : Group → Group} {l : List Group}
    (hf1 : ∀ g, (f1 g).id = g.id) :
    adjustGroups gid f2 (adjustGroups gid f1 l) =
      adjustGroups gid (fun g => f2 (f1 g)) l := by
  unfold adjustGroups
  rw [List.map_map]
  apply List.map_congr_left
  intro g _
  simp only [Function.comp_apply]
  by_cases h : g.id = gid
  · rw [if_pos h, if_pos (by rw [hf1 g]; exact h), if_pos h]
  · rw [if_neg h, if_neg h, if_neg h]

theorem findGroupL_adjustGroups {gid2 : Nat} {f : Group → Group} {l : List Group}
    (hf : ∀ g, (f g).id = g.id) (gid : Nat) :
    findGroupL (adjustGroups gid2 f l) gid =
      (findGroupL l gid).map fun g => if g.id = gid2 then f g else g := by
  induction l with
  | nil => rfl
  | cons g l ih =>
    show List.find? _ ((if g.id = gid2 then f g else g) :: adjustGroups gid2 f l) = _
    have hid : (if g.id = gid2 then f g else g).id = g.id := by
      split
      · exact hf g
      · rfl
    by_cases h : g.id = gid
    · rw [List.find?_cons_of_pos _ (by simp only [hid]; simpa using h)]
      unfold findGroupL
      rw [List.find?_cons_of_pos _ (by simpa using h)]
      rfl
    · rw [List.find?_cons_of_neg _ (by simp only [hid]; simpa using h)]
      unfold findGroupL at ih ⊢
      rw [List.find?_cons_of_neg _ (by simpa using h)]
      exact ih

/-- The combined per-row effect of a join on the member's group: the trigger
increment followed by the §4.3 completion check. -/
def joinStep (g : Group) : Group :=
  let g1 : Group := { g with current_count := g.current_count + 1 }
  if g1.status = GroupStatus.active ∧ (g1.min_participants : Int) ≤ g1.current_count
  then { g1 with status := GroupStatus.completed } else g1

theorem joinStep_id (g : Group) : (joinStep g).id = g.id := by
  simp only [joinStep]
  split <;> rfl

theorem joinStep_count (g : Group) :
    (joinStep g).current_count = g.current_count + 1 := by
  simp only [joinStep]
  split <;> rfl

theorem joinStep_max (g : Group) :
    (joinStep g).max_participants = g.max_participants := by
  simp only [joinStep]
  split <;> rfl

theorem joinStep_status_stuck (g : Group) (h : g.status ≠ GroupStatus.active) :
    (joinStep g).status = g.status := by
  simp only [joinStep]
  rw [if_neg fun hc => h hc.1]

theorem join_groups_eq (gid : Nat) (l : List Group) :
    completionCheck gid (triggerMemberInsert gid l) = adjustGroups gid joinStep l := by
  unfold completionCheck triggerMemberInsert adjustGroups
  rw [List.map_map]
  apply List.map_congr_left
  intro g _
  simp only [Function.comp_apply]
  by_cases h : g.id = gid
  · rw [if_pos h]
    rw [if_pos (show ({ g with current_count := g.current_count + 1 } : Group).id = gid from h)]
    rw [if_pos h]
    rfl
  · rw [if_neg h, if_neg h, if_neg h]

/-! ### The reachable-state invariant -/

/-- The inductive invariant of the engine: serial primary keys, membership
referential integrity, uniqueness of `(group_id, user_id)` pairs, the
`current_count` synchronization and bound of §3, and the order-total
equation of `init.sql` line 265. -/
structure Inv (s : DB) : Prop where
  group_id_lt : ∀ g ∈ s.groups, g.id < s.nextGroupId
  group_id_nodup : (s.groups.map Group.id).Nodup
  member_has_group : ∀ m ∈ s.members, ∃ g ∈ s.groups, m.group_id = g.id
  member_nodup : s.members.Pairwise fun m1 m2 =>
    ¬ (m1.group_id = m2.group_id ∧ m1.user_id = m2.user_id)
  count_sync : ∀ g ∈ s.groups, g.current_count = (countIn s.members g.id : Int)
  count_le_max : ∀ g ∈ s.groups, g.current_count ≤ (g.max_participants : Int)
  order_total : ∀ o ∈ s.orders, o.total_amount = o.final_price + o.delivery_cost

theorem inv_initDB : Inv initDB := by
  constructor <;> simp [initDB]

theorem group_unique {s : DB} (hs : Inv s) {g1 g2 : Group}
    (h1 : g1 ∈ s.groups) (h2 : g2 ∈ s.groups) (h : g1.id = g2.id) : g1 = g2 :=
  List.inj_on_of_nodup_map hs.group_id_nodup h1 h2 h

theorem countIn_fresh {s : DB} (hs : Inv s) {gid : Nat} (hgid : s.nextGroupId ≤ gid) :
    countIn s.members gid = 0 := by
  unfold countIn
  have hf : s.members.filter (fun m => decide (m.group_id = gid)) = [] := by
    rw [List.filter_eq_nil_iff]
    intro m hm
    simp only [decide_eq_true_eq]
    intro hEq
    obtain ⟨g, hg, hmg⟩ := hs.member_has_group m hm
    have := hs.group_id_lt g hg
    omega
  rw [hf]
  rfl

theorem runJoin_ok {s s' : DB} {gid uid : Nat} (h : runJoin s gid uid = .ok s') :
    ∃ g, findGroupL s.groups gid = some g ∧ g.status = GroupStatus.active ∧
      isMemberIn s.members gid uid = false ∧
      g.current_count < (g.max_participants : Int) ∧
      s' = { s with
        members := ⟨gid, uid⟩ :: s.members
        groups := completionCheck gid (triggerMemberInsert gid s.groups) } := by
  unfold runJoin at h
  cases hfind : findGroupL s.groups gid with
  | none =>
    simp only [hfind] at h
    exact Except.noConfusion h
  | some g =>
    simp only [hfind] at h
    by_cases h1 : g.status ≠ GroupStatus.active
    · rw [if_pos h1] at h; exact Except.noConfusion h
    rw [if_neg h1] at h
    by_cases h2 : isMemberIn s.members gid uid = true
    · rw [if_pos h2] at h; exact Except.noConfusion h
    rw [if_neg h2] at h
    by_cases h3 : (g.max_participants : Int) ≤ g.current_count
    · rw [if_pos h3] at h; exact Except.noConfusion h
    rw [if_neg h3] at h
    injection h with h
    exact ⟨g, rfl, not_not.mp h1, (Bool.not_eq_true _) ▸ h2, not_le.mp h3, h.symm⟩

theorem inv_runJoin {s s' : DB} {gid uid : Nat} (hs : Inv s)
    (h : runJoin s gid uid = .ok s') : Inv s' := by
  obtain ⟨g, hfind, hact, hmem, hlt, rfl⟩ := runJoin_ok h
  obtain ⟨hgmem, hgid⟩ := findGroupL_eq hfind
  rw [join_groups_eq]
  constructor
  case group_id_lt =>
    intro g' hg'
    obtain ⟨g0, hg0, hcase⟩ := mem_adjustGroups.mp hg'
    have hid : g'.id = g0.id := by
      rcases hcase with ⟨_, heq'⟩ | ⟨_, heq'⟩
      · rw [heq']
      · rw [heq']; exact joinStep_id g0
    show g'.id < s.nextGroupId
    rw [hid]
    exact hs.group_id_lt g0 hg0
  case group_id_nodup =>
    show ((adjustGroups gid joinStep s.groups).map Group.id).Nodup
    rw [adjustGroups_map_id joinStep_id]
    exact hs.group_id_nodup
  case member_has_group =>
    intro m hm
    rcases List.mem_cons.mp hm with rfl | hm'
    · obtain ⟨g', hg', hid⟩ := adjustGroups_exists_same_id joinStep_id hgmem
      exact ⟨g', hg', (hid.trans hgid).symm⟩
    · obtain ⟨g1, hg1, hmg⟩ := hs.member_has_group m hm'
      obtain ⟨g', hg', hid⟩ := adjustGroups_exists_same_id joinStep_id hg1
      exact ⟨g', hg', hmg.trans hid.symm⟩
  case member_nodup =>
    rw [List.pairwise_cons]
    refine ⟨?_, hs.member_nodup⟩
    intro m hm hcon
    exact (isMemberIn_eq_false _ _ _).mp hmem m hm ⟨hcon.1.symm, hcon.2.symm⟩
  case count_sync =>
    intro g' hg'
    obtain ⟨g0, hg0, hcase⟩ := mem_adjustGroups.mp hg'
    have hcount0 := hs.count_sync g0 hg0
    show g'.current_count = (countIn (⟨gid, uid⟩ :: s.members) g'.id : Int)
    rcases hcase with ⟨hne, heq'⟩ | ⟨heq, heq'⟩
    · rw [heq']
      rw [countIn_cons, if_neg (fun hx : gid = g0.id => hne hx.symm), Nat.add_zero]
      exact hcount0
    · rw [heq', joinStep_count, joinStep_id, heq, countIn_cons, if_pos rfl]
      rw [heq] at hcount0
      push_cast
      omega
  case count_le_max =>
    intro g' hg'
    obtain ⟨g0, hg0, hcase⟩ := mem_adjustGroups.mp hg'
    show g'.current_count ≤ (g'.max_participants : Int)
    rcases hcase with ⟨hne, heq'⟩ | ⟨heq, heq'⟩
    · rw [heq']
      exact hs.count_le_max g0 hg0
    · rw [heq', joinStep_count, joinStep_max]
      have hg0g : g0 = g := group_unique hs hg0 hgmem (by rw [heq, hgid])
      rw [hg0g]
      omega
  case order_total =>
    exact hs.order_total

theorem runLeave_ok {s s' : DB} {gid uid : Nat} (h : runLeave s gid uid = .ok s') :
    ∃ g, findGroupL s.groups gid = some g ∧ g.status = GroupStatus.active ∧
      isMemberIn s.members gid uid = true ∧
      s' = { s with
        members := s.members.eraseP fun m => m.group_id = gid && m.user_id = uid
        groups := triggerMemberDelete gid s.groups } := by
  unfold runLeave at h
  cases hfind : findGroupL s.groups gid with
  | none =>
    simp only [hfind] at h
    exact Except.noConfusion h
  | some g =>
    simp only [hfind] at h
    by_cases h1 : g.status ≠ GroupStatus.active
    · rw [if_pos h1] at h; exact Except.noConfusion h
    rw [if_neg h1] at h
    by_cases h2 : ¬ isMemberIn s.members gid uid = true
    · rw [if_pos h2] at h; exact Except.noConfusion h
    rw [if_neg h2] at h
    injection h with h
    exact ⟨g, rfl, not_not.mp h1, not_not.mp h2, h.symm⟩

theorem inv_runLeave {s s' : DB} {gid uid : Nat} (hs : Inv s)
    (h : runLeave s gid uid = .ok s') : Inv s' := by
  obtain ⟨g, hfind, hact, hmem, rfl⟩ := runLeave_ok h
  obtain ⟨m0, hm0, hm0g, hm0u⟩ := (isMemberIn_iff _ _ _).mp hmem
  have hpm0 : (fun m : GroupMember => m.group_id = gid && m.user_id = uid) m0 = true := by
    simp [hm0g, hm0u]
  obtain ⟨a, l1, l2, hnl1, hpa, hL, hE⟩ :=
    @List.exists_of_eraseP GroupMember
      (fun m => m.group_id = gid && m.user_id = uid) s.members m0 hm0 hpm0
  have hag : a.group_id = gid ∧ a.user_id = uid := by simpa using hpa
  have hc : countIn s.members gid = countIn (l1 ++ l2) gid + 1 := by
    rw [hL, countIn_append, countIn_append, countIn_cons, if_pos hag.1]
    omega
  have hcx : ∀ x, ¬ x = gid → countIn (l1 ++ l2) x = countIn s.members x := by
    intro x hx
    rw [hL, countIn_append, countIn_append, countIn_cons]
    rw [if_neg (show ¬ a.group_id = x by rw [hag.1]; exact fun hh => hx hh.symm)]
    omega
  have hsubm : ∀ m : GroupMember, m ∈ l1 ++ l2 → m ∈ s.members := by
    intro m hm
    rw [hL]
    rcases List.mem_append.mp hm with hl | hl
    · exact List.mem_append_left _ hl
    · exact List.mem_append_right _ (List.mem_cons_of_mem _ hl)
  have hfdec : ∀ g0 : Group,
      ({ g0 with current_count := g0.current_count - 1 } : Group).id = g0.id :=
    fun g0 => rfl
  rw [hE]
  unfold triggerMemberDelete
  constructor
  case group_id_lt =>
    intro g' hg'
    obtain ⟨g0, hg0, hcase⟩ := mem_adjustGroups.mp hg'
    have hid : g'.id = g0.id := by
      rcases hcase with ⟨_, heq'⟩ | ⟨_, heq'⟩ <;> rw [heq']
    show g'.id < s.nextGroupId
    rw [hid]
    exact hs.group_id_lt g0 hg0
  case group_id_nodup =>
    show ((adjustGroups gid _ s.groups).map Group.id).Nodup
    rw [adjustGroups_map_id hfdec]
    exact hs.group_id_nodup
  case member_has_group =>
    intro m hm
    obtain ⟨g1, hg1, hmg⟩ := hs.member_has_group m (hsubm m hm)
    obtain ⟨g', hg', hid⟩ := adjustGroups_exists_same_id hfdec hg1
    exact ⟨g', hg', hmg.trans hid.symm⟩
  case member_nodup =>
    rw [← hE]
    exact List.Pairwise.sublist (List.eraseP_sublist _) hs.member_nodup
  case count_sync =>
    intro g' hg'
    obtain ⟨g0, hg0, hcase⟩ := mem_adjustGroups.mp hg'
    have hcount0 := hs.count_sync g0 hg0
    show g'.current_count = (countIn (l1 ++ l2) g'.id : Int)
    rcases hcase with ⟨hne, heq'⟩ | ⟨heq, heq'⟩
    · rw [heq', hcx g0.id hne]
      exact hcount0
    · rw [heq']
      show g0.current_count - 1 = (countIn (l1 ++ l2) g0.id : Int)
      rw [heq] at hcount0 ⊢
      rw [hc] at hcount0
      push_cast at hcount0 ⊢
      omega
  case count_le_max =>
    intro g' hg'
    obtain ⟨g0, hg0, hcase⟩ := mem_adjustGroups.mp hg'
    have hle0 := hs.count_le_max g0 hg0
    show g'.current_count ≤ (g'.max_participants : Int)
    rcases hcase with ⟨hne, heq'⟩ | ⟨heq, heq'⟩
    · rw [heq']; exact hle0
    · rw [heq']
      show g0.current_count - 1 ≤ (g0.max_participants : Int)
      omega
  case order_total =>
    exact hs.order_total

/-- Invariant preservation for any update that only rewrites group rows while
keeping their key, counter and capacity. -/
theorem inv_adjustStatus {s : DB} (hs : Inv s) (gid : Nat) (f : Group → Group)
    (hid : ∀ g, (f g).id = g.id)
    (hcnt : ∀ g, (f g).current_count = g.current_count)
    (hmax : ∀ g, (f g).max_participants = g.max_participants) :
    Inv { s with groups := adjustGroups gid f s.groups } := by
  constructor
  case group_id_lt =>
    intro g' hg'
    obtain ⟨g0, hg0, hcase⟩ := mem_adjustGroups.mp hg'
    have hid' : g'.id = g0.id := by
      rcases hcase with ⟨_, heq'⟩ | ⟨_, heq'⟩ <;> rw [heq']
      exact hid g0
    show g'.id < s.nextGroupId
    rw [hid']
    exact hs.group_id_lt g0 hg0
  case group_id_nodup =>
    show ((adjustGroups gid f s.groups).map Group.id).Nodup
    rw [adjustGroups_map_id hid]
    exact hs.group_id_nodup
  case member_has_group =>
    intro m hm
    obtain ⟨g1, hg1, hmg⟩ := hs.member_has_group m hm
    obtain ⟨g', hg', hid'⟩ := adjustGroups_exists_same_id hid hg1
    exact ⟨g', hg', hmg.trans hid'.symm⟩
  case member_nodup =>
    exact hs.member_nodup
  case count_sync =>
    intro g' hg'
    obtain ⟨g0, hg0, hcase⟩ := mem_adjustGroups.mp hg'
    have hcount0 := hs.count_sync g0 hg0
    show g'.current_count = (countIn s.members g'.id : Int)
    rcases hcase with ⟨_, heq'⟩ | ⟨_, heq'⟩
    · rw [heq']
      exact hcount0
    · rw [heq', hcnt g0, hid g0]
      exact hcount0
  case count_le_max =>
    intro g' hg'
    obtain ⟨g0, hg0, hcase⟩ := mem_adjustGroups.mp hg'
    have hle0 := hs.count_le_max g0 hg0
    show g'.current_count ≤ (g'.max_participants : Int)
    rcases hcase with ⟨_, heq'⟩ | ⟨_, heq'⟩
    · rw [heq']
      exact hle0
    · rw [heq', hcnt g0, hmax g0]
      exact hle0
  case order_total =>
    exact hs.order_total

theorem inv_runCancelGroup {s s' : DB} {gid : Nat} (hs : Inv s)
    (h : runCancelGroup s gid = .ok s') : Inv s' := by
  unfold runCancelGroup at h
  cases hfind : findGroupL s.groups gid with
  | none =>
    simp only [hfind] at h
    exact Except.noConfusion h
  | some g =>
    simp only [hfind] at h
    by_cases h1 : g.status ≠ GroupStatus.active
    · rw [if_pos h1] at h; exact Except.noConfusion h
    rw [if_neg h1] at h
    injection h with h
    rw [← h]
    unfold setGroupStatus
    exact inv_adjustStatus hs gid _ (fun g0 => rfl) (fun g0 => rfl) (fun g0 => rfl)

theorem inv_runDeadlineEval {s s' : DB} {gid now : Nat} (hs : Inv s)
    (h : runDeadlineEval s gid now = .ok s') : Inv s' := by
  unfold runDeadlineEval at h
  cases hfind : findGroupL s.groups gid with
  | none =>
    simp only [hfind] at h
    exact Except.noConfusion h
  | some g =>
    simp only [hfind] at h
    by_cases h1 : g.status ≠ GroupStatus.active
    · rw [if_pos h1] at h
      injection h with h
      rw [← h]; exact hs
    rw [if_neg h1] at h
    by_cases h2 : now < g.deadline
    · rw [if_pos h2] at h
      injection h with h
      rw [← h]; exact hs
    rw [if_neg h2] at h
    by_cases h3 : (g.min_participants : Int) ≤ g.current_count
    · rw [if_pos h3] at h
      injection h with h
      rw [← h]
      unfold setGroupStatus
      exact inv_adjustStatus hs gid _ (fun g0 => rfl) (fun g0 => rfl) (fun g0 => rfl)
    · rw [if_neg h3] at h
      injection h with h
      rw [← h]
      unfold setGroupStatus
      exact inv_adjustStatus hs gid _ (fun g0 => rfl) (fun g0 => rfl) (fun g0 => rfl)

theorem inv_runCreateProduct {s s' : DB} {b : Rat} {t : List Tier} (hs : Inv s)
    (h : runCreateProduct s b t = .ok s') : Inv s' := by
  unfold runCreateProduct at h
  injection h with h
  rw [← h]
  exact ⟨hs.group_id_lt, hs.group_id_nodup, hs.member_has_group, hs.member_nodup,
    hs.count_sync, hs.count_le_max, hs.order_total⟩

theorem inv_runCreateGroup {s s' : DB} {pid cid mn mx dl : Nat} (hs : Inv s)
    (h : runCreateGroup s pid cid mn mx dl = .ok s') : Inv s' := by
  unfold runCreateGroup at h
  by_cases h1 : (findProductL s.products pid).isNone = true
  · rw [if_pos h1] at h; exact Except.noConfusion h
  rw [if_neg h1] at h
  injection h with h
  rw [← h]
  refine ⟨?_, ?_, ?_, hs.member_nodup, ?_, ?_, hs.order_total⟩
  · intro g hg
    rcases List.mem_cons.mp hg with rfl | hg'
    · exact Nat.lt_succ_self _
    · exact Nat.lt_succ_of_lt (hs.group_id_lt g hg')
  · rw [List.map_cons, List.nodup_cons]
    refine ⟨?_, hs.group_id_nodup⟩
    intro hmem
    obtain ⟨g1, hg1, hgid1⟩ := List.mem_map.mp hmem
    have hlt := hs.group_id_lt g1 hg1
    rw [hgid1] at hlt
    exact Nat.lt_irrefl _ hlt
  · intro m hm
    obtain ⟨g1, hg1, hmg⟩ := hs.member_has_group m hm
    exact ⟨g1, List.mem_cons_of_mem _ hg1, hmg⟩
  · intro g hg
    rcases List.mem_cons.mp hg with rfl | hg'
    · show (0 : Int) = (countIn s.members s.nextGroupId : Int)
      rw [countIn_fresh hs (le_refl _)]
      rfl
    · exact hs.count_sync g hg'
  · intro g hg
    rcases List.mem_cons.mp hg with rfl | hg'
    · show (0 : Int) ≤ (mx : Int)
      exact_mod_cast Nat.zero_le mx
    · exact hs.count_le_max g hg'

theorem inv_runCreateOrder {s s' : DB} {gid uid aid : Nat} {dt : DeliveryType}
    (hs : Inv s) (h : runCreateOrder s gid uid aid dt = .ok s') : Inv s' := by
  unfold runCreateOrder at h
  cases hfind : findGroupL s.groups gid with
  | none =>
    simp only [hfind] at h
    exact Except.noConfusion h
  | some g =>
    simp only [hfind] at h
    by_cases h1 : g.status ≠ GroupStatus.active ∧ g.status ≠ GroupStatus.completed
    · rw [if_pos h1] at h; exact Except.noConfusion h
    rw [if_neg h1] at h
    cases hfp : findProductL s.products g.product_id with
    | none =>
      simp only [hfp] at h
      exact Except.noConfusion h
    | some p =>
      simp only [hfp] at h
      injection h with h
      rw [← h]
      refine ⟨hs.group_id_lt, hs.group_id_nodup, hs.member_has_group, hs.member_nodup,
        hs.count_sync, hs.count_le_max, ?_⟩
      intro o ho
      rcases List.mem_cons.mp ho with rfl | ho'
      · rfl
      · exact hs.order_total o ho'

theorem inv_setOrderStatus {s : DB} (hs : Inv s) (oid : Nat) (st : OrderStatus) :
    Inv { s with orders := setOrderStatus oid st s.orders } := by
  refine ⟨hs.group_id_lt, hs.group_id_nodup, hs.member_has_group, hs.member_nodup,
    hs.count_sync, hs.count_le_max, ?_⟩
  intro o' ho'
  obtain ⟨o, ho, heq⟩ := List.mem_map.mp ho'
  have htot := hs.order_total o ho
  show o'.total_amount = o'.final_price + o'.delivery_cost
  rw [← heq]
  by_cases h : o.id = oid
  · rw [if_pos h]
    exact htot
  · rw [if_neg h]
    exact htot

theorem inv_runCancelOrder {s s' : DB} {oid : Nat} (hs : Inv s)
    (h : runCancelOrder s oid = .ok s') : Inv s' := by
  unfold runCancelOrder at h
  cases hfind : findOrderL s.orders oid with
  | none =>
    simp only [hfind] at h
    exact Except.noConfusion h
  | some o =>
    simp only [hfind] at h
    by_cases h1 : o.status = OrderStatus.pending ∨ o.status = OrderStatus.frozen
    · rw [if_pos h1] at h
      injection h with h
      rw [← h]
      exact inv_setOrderStatus hs oid .cancelled
    · rw [if_neg h1] at h
      exact Except.noConfusion h

theorem inv_runAdvanceOrder {s s' : DB} {oid : Nat} {st : OrderStatus} (hs : Inv s)
    (h : runAdvanceOrder s oid st = .ok s') : Inv s' := by
  unfold runAdvanceOrder at h
  cases hfind : findOrderL s.orders oid with
  | none =>
    simp only [hfind] at h
    exact Except.noConfusion h
  | some o =>
    simp only [hfind] at h
    by_cases h1 : allowedOrderTransition o.status st = true
    · rw [if_pos h1] at h
      injection h with h
      rw [← h]
      exact inv_setOrderStatus hs oid st
    · rw [if_neg h1] at h
      exact Except.noConfusion h

theorem inv_runCreateReturn {s s' : DB} {oid : Nat} {r : ReturnReason} {d : String}
    (hs : Inv s) (h : runCreateReturn s oid r d = .ok s') : Inv s' := by
  unfold runCreateReturn at h
  cases hfind : findOrderL s.orders oid with
  | none =>
    simp only [hfind] at h
    exact Except.noConfusion h
  | some o =>
    simp only [hfind] at h
    by_cases h1 : o.status ≠ OrderStatus.delivered
    · rw [if_pos h1] at h
      exact Except.noConfusion h
    rw [if_neg h1] at h
    injection h with h
    rw [← h]
    exact ⟨hs.group_id_lt, hs.group_id_nodup, hs.member_has_group, hs.member_nodup,
      hs.count_sync, hs.count_le_max, hs.order_total⟩

theorem inv_applyOp {s : DB} (hs : Inv s) (op : Op) : Inv (applyOp s op) := by
  unfold applyOp
  cases hR : runOp s op with
  | error e => exact hs
  | ok s' =>
    cases op with
    | createProduct b t => exact inv_runCreateProduct hs hR
    | createGroup pid cid mn mx dl => exact inv_runCreateGroup hs hR
    | join gid uid => exact inv_runJoin hs hR
    | leave gid uid => exact inv_runLeave hs hR
    | cancelGroup gid => exact inv_runCancelGroup hs hR
    | deadlineEval gid now => exact inv_runDeadlineEval hs hR
    | createOrder gid uid aid dt => exact inv_runCreateOrder hs hR
    | cancelOrder oid => exact inv_runCancelOrder hs hR
    | advanceOrder oid st => exact inv_runAdvanceOrder hs hR
    | createReturn oid r d => exact inv_runCreateReturn hs hR

theorem inv_foldl (ops : List Op) : ∀ s : DB, Inv s → Inv (List.foldl applyOp s ops) := by
  induction ops with
  | nil => intro s hs; exact hs
  | cons op ops ih =>
    intro s hs
    rw [List.foldl_cons]
    exact ih _ (inv_applyOp hs op)

theorem inv_reach (ops : List Op) : Inv (reach ops) :=
  inv_foldl ops initDB inv_initDB

/-! ## Claims about the engine state -/

/-- C1: in every reachable database state, every group's `current_count` lies
between `0` and `max_participants` and equals the number of `group_members`
rows whose `group_id` is that group — the trigger `update_group_count`
increments on INSERT and decrements on DELETE, and the join guard keeps the
counter within bounds. -/
theorem groups_count_invariant (ops : List Op) :
    ∀ g ∈ (reach ops).groups,
      0 ≤ g.current_count ∧ g.current_count ≤ (g.max_participants : Int) ∧
      g.current_count = (countIn (reach ops).members g.id : Int) := by
  intro g hg
  have hs := inv_reach ops
  have hsync := hs.count_sync g hg
  refine ⟨?_, hs.count_le_max g hg, hsync⟩
  rw [hsync]
  exact_mod_cast Nat.zero_le _

/-- Witness for C1: after creating a product, a group (min 2, max 3) and one
join, the group row holds count 1 = its single membership row. -/
theorem groups_count_invariant_witness :
    0 ≤ (⟨0, 0, 1, .active, 2, 3, 1, 9⟩ : Group).current_count ∧
    (⟨0, 0, 1, .active, 2, 3, 1, 9⟩ : Group).current_count ≤
      ((⟨0, 0, 1, .active, 2, 3, 1, 9⟩ : Group).max_participants : Int) ∧
    (⟨0, 0, 1, .active, 2, 3, 1, 9⟩ : Group).current_count =
      (countIn (reach [.createProduct 100 [], .createGroup 0 1 2 3 9, .join 0 1]).members
        (⟨0, 0, 1, .active, 2, 3, 1, 9⟩ : Group).id : Int) :=
  groups_count_invariant [.createProduct 100 [], .createGroup 0 1 2 3 9, .join 0 1]
    ⟨0, 0, 1, .active, 2, 3, 1, 9⟩ (by decide)

/-- C4: in every reachable state the `(group_id, user_id)` pairs of
`group_members` are pairwise distinct, and a second join by the same user into
the same (active) group fails with `AlreadyMember` and leaves the database
unchanged. -/
theorem membership_unique (ops : List Op) (gid uid : Nat) (g : Group)
    (hfind : findGroupL (reach ops).groups gid = some g)
    (hactive : g.status = GroupStatus.active)
    (hmem : isMemberIn (reach ops).members gid uid = true) :
    ((reach ops).members.Pairwise fun m1 m2 =>
        ¬ (m1.group_id = m2.group_id ∧ m1.user_id = m2.user_id)) ∧
    runJoin (reach ops) gid uid = .error .alreadyMember ∧
    applyOp (reach ops) (.join gid uid) = reach ops := by
  have hs := inv_reach ops
  have herr : runJoin (reach ops) gid uid = .error .alreadyMember := by
    unfold runJoin
    simp only [hfind]
    rw [if_neg (not_not_intro hactive), if_pos hmem]
  refine ⟨hs.member_nodup, herr, ?_⟩
  unfold applyOp
  rw [show runOp (reach ops) (Op.join gid uid) =
    Except.error EngineError.alreadyMember from herr]

/-- Witness for C4: user 1 already joined group 0; a second join fails with
`AlreadyMember` and changes nothing. -/
theorem membership_unique_witness :
    ((reach [.createProduct 100 [], .createGroup 0 1 2 3 9, .join 0 1]).members.Pairwise
        fun m1 m2 => ¬ (m1.group_id = m2.group_id ∧ m1.user_id = m2.user_id)) ∧
    runJoin (reach [.createProduct 100 [], .createGroup 0 1 2 3 9, .join 0 1]) 0 1 =
      .error .alreadyMember ∧
    applyOp (reach [.createProduct 100 [], .createGroup 0 1 2 3 9, .join 0 1]) (.join 0 1) =
      reach [.createProduct 100 [], .createGroup 0 1 2 3 9, .join 0 1] :=
  membership_unique [.createProduct 100 [], .createGroup 0 1 2 3 9, .join 0 1] 0 1
    ⟨0, 0, 1, .active, 2, 3, 1, 9⟩ (by decide) rfl (by decide)

/-- Whether a group row exists and is in a terminal status (`completed`,
`failed` or `cancelled`). -/
def terminalGroupL (l : List Group) (gid : Nat) : Bool :=
  match findGroupL l gid with
  | some g => g.status ≠ GroupStatus.active
  | none => false

/-- Terminal status of a group in a database state. -/
def terminalGroup (s : DB) (gid : Nat) : Bool :=
  terminalGroupL s.groups gid

theorem terminalGroupL_adjust {gid2 : Nat} (f : Group → Group) {l : List Group}
    (hfid : ∀ g, (f g).id = g.id)
    (hfstat : ∀ g, g.status ≠ GroupStatus.active → (f g).status ≠ GroupStatus.active)
    (gid : Nat) (h : terminalGroupL l gid = true) :
    terminalGroupL (adjustGroups gid2 f l) gid = true := by
  unfold terminalGroupL at h ⊢
  rw [findGroupL_adjustGroups hfid]
  cases hfind : findGroupL l gid with
  | none =>
    simp only [hfind] at h
    exact Bool.noConfusion h
  | some g =>
    simp only [hfind] at h
    simp only [hfind, Option.map_some']
    have hst : g.status ≠ GroupStatus.active := by simpa using h
    show decide ((if g.id = gid2 then f g else g).status ≠ GroupStatus.active) = true
    by_cases hgid2 : g.id = gid2
    · rw [if_pos hgid2]
      exact decide_eq_true (hfstat g hst)
    · rw [if_neg hgid2]
      exact decide_eq_true hst

theorem terminalGroupL_cons_fresh {l : List Group} {gnew : Group} {gid : Nat}
    (hne : ¬ gnew.id = gid) (h : terminalGroupL l gid = true) :
    terminalGroupL (gnew :: l) gid = true := by
  unfold terminalGroupL findGroupL at h ⊢
  rw [List.find?_cons_of_neg _ (by simpa using hne)]
  exact h

/-- No operation moves a group out of a terminal status. -/
theorem terminalGroup_applyOp {s : DB} (hs : Inv s) {gid : Nat}
    (hterm : terminalGroup s gid = true) (op : Op) :
    terminalGroup (applyOp s op) gid = true := by
  have hterm' := hterm
  unfold terminalGroup terminalGroupL at hterm'
  cases hfind : findGroupL s.groups gid with
  | none =>
    simp only [hfind] at hterm'
    exact Bool.noConfusion hterm'
  | some g =>
  simp only [hfind] at hterm'
  have hst : g.status ≠ GroupStatus.active := by simpa using hterm'
  obtain ⟨hgmem, hgid⟩ := findGroupL_eq hfind
  unfold applyOp
  cases hR : runOp s op with
  | error e => exact hterm
  | ok s' =>
  cases op with
  | createProduct b t =>
    simp only [runOp] at hR
    unfold runCreateProduct at hR
    injection hR with hR
    rw [← hR]
    exact hterm
  | createGroup pid cid mn mx dl =>
    simp only [runOp] at hR
    unfold runCreateGroup at hR
    by_cases h1 : (findProductL s.products pid).isNone = true
    · rw [if_pos h1] at hR; exact Except.noConfusion hR
    rw [if_neg h1] at hR
    injection hR with hR
    rw [← hR]
    show terminalGroupL (_ :: s.groups) gid = true
    apply terminalGroupL_cons_fresh
    · show ¬ s.nextGroupId = gid
      have := hs.group_id_lt g hgmem
      omega
    · exact hterm
  | join gid2 uid2 =>
    obtain ⟨g2, hfind2, hact2, hmem2, hlt2, rfl⟩ := runJoin_ok hR
    show terminalGroupL (completionCheck gid2 (triggerMemberInsert gid2 s.groups)) gid = true
    rw [join_groups_eq]
    exact terminalGroupL_adjust _ joinStep_id
      (fun g0 h0 => by rw [joinStep_status_stuck g0 h0]; exact h0) gid hterm
  | leave gid2 uid2 =>
    obtain ⟨g2, hfind2, hact2, hmem2, rfl⟩ := runLeave_ok hR
    show terminalGroupL (triggerMemberDelete gid2 s.groups) gid = true
    unfold triggerMemberDelete
    exact terminalGroupL_adjust
      (fun g0 => { g0 with current_count := g0.current_count - 1 })
      (fun g0 => rfl) (fun g0 h0 => h0) gid hterm
  | cancelGroup gid2 =>
    simp only [runOp] at hR
    unfold runCancelGroup at hR
    cases hfind2 : findGroupL s.groups gid2 with
    | none =>
      simp only [hfind2] at hR
      exact Except.noConfusion hR
    | some g2 =>
      simp only [hfind2] at hR
      by_cases h1 : g2.status ≠ GroupStatus.active
      · rw [if_pos h1] at hR; exact Except.noConfusion hR
      rw [if_neg h1] at hR
      injection hR with hR
      rw [← hR]
      show terminalGroupL (setGroupStatus gid2 .cancelled s.groups) gid = true
      unfold setGroupStatus
      exact terminalGroupL_adjust
        (fun g0 => { g0 with status := GroupStatus.cancelled })
        (fun g0 => rfl) (fun g0 h0 => by simp) gid hterm
  | deadlineEval gid2 now2 =>
    simp only [runOp] at hR
    unfold runDeadlineEval at hR
    cases hfind2 : findGroupL s.groups gid2 with
    | none =>
      simp only [hfind2] at hR
      exact Except.noConfusion hR
    | some g2 =>
      simp only [hfind2] at hR
      by_cases h1 : g2.status ≠ GroupStatus.active
      · rw [if_pos h1] at hR
        injection hR with hR
        rw [← hR]; exact hterm
      rw [if_neg h1] at hR
      by_cases h2 : now2 < g2.deadline
      · rw [if_pos h2] at hR
        injection hR with hR
        rw [← hR]; exact hterm
      rw [if_neg h2] at hR
      by_cases h3 : (g2.min_participants : Int) ≤ g2.current_count
      · rw [if_pos h3] at hR
        injection hR with hR
        rw [← hR]
        show terminalGroupL (setGroupStatus gid2 .completed s.groups) gid = true
        unfold setGroupStatus
        exact terminalGroupL_adjust
          (fun g0 => { g0 with status := GroupStatus.completed })
          (fun g0 => rfl) (fun g0 h0 => by simp) gid hterm
      · rw [if_neg h3] at hR
        injection hR with hR
        rw [← hR]
        show terminalGroupL (setGroupStatus gid2 .failed s.groups) gid = true
        unfold setGroupStatus
        exact terminalGroupL_adjust
          (fun g0 => { g0 with status := GroupStatus.failed })
          (fun g0 => rfl) (fun g0 h0 => by simp) gid hterm
  | createOrder gid2 uid2 aid2 dt2 =>
    simp only [runOp] at hR
    unfold runCreateOrder at hR
    cases hfind2 : findGroupL s.groups gid2 with
    | none =>
      simp only [hfind2] at hR
      exact Except.noConfusion hR
    | some g2 =>
      simp only [hfind2] at hR
      by_cases h1 : g2.status ≠ GroupStatus.active ∧ g2.status ≠ GroupStatus.completed
      · rw [if_pos h1] at hR; exact Except.noConfusion hR
      rw [if_neg h1] at hR
      cases hfp : findProductL s.products g2.product_id with
      | none =>
        simp only [hfp] at hR
        exact Except.noConfusion hR
      | some p =>
        simp only [hfp] at hR
        injection hR with hR
        rw [← hR]
        exact hterm
  | cancelOrder oid =>
    simp only [runOp] at hR
    unfold runCancelOrder at hR
    cases hfo : findOrderL s.orders oid with
    | none =>
      simp only [hfo] at hR
      exact Except.noConfusion hR
    | some o =>
      simp only [hfo] at hR
      by_cases h1 : o.status = OrderStatus.pending ∨ o.status = OrderStatus.frozen
      · rw [if_pos h1] at hR
        injection hR with hR
        rw [← hR]
        exact hterm
      · rw [if_neg h1] at hR
        exact Except.noConfusion hR
  | advanceOrder oid st =>
    simp only [runOp] at hR
    unfold runAdvanceOrder at hR
    cases hfo : findOrderL s.orders oid with
    | none =>
      simp only [hfo] at hR
      exact Except.noConfusion hR
    | some o =>
      simp only [hfo] at hR
      by_cases h1 : allowedOrderTransition o.status st = true
      · rw [if_pos h1] at hR
        injection hR with hR
        rw [← hR]
        exact hterm
      · rw [if_neg h1] at hR
        exact Except.noConfusion hR
  | createReturn oid r d =>
    simp only [runOp] at hR
    unfold runCreateReturn at hR
    cases hfo : findOrderL s.orders oid with
    | none =>
      simp only [hfo] at hR
      exact Except.noConfusion hR
    | some o =>
      simp only [hfo] at hR
      by_cases h1 : o.status ≠ OrderStatus.delivered
      · rw [if_pos h1] at hR
        exact Except.noConfusion hR
      rw [if_neg h1] at hR
      injection hR with hR
      rw [← hR]
      exact hterm

/-- C5: a terminal group stays terminal — join and leave on it fail and leave
the database unchanged, re-running the deadline evaluation is a no-op `ok`
(not an error), and no operation whatsoever moves its status out of the
terminal set. -/
theorem terminal_group_frozen (ops : List Op) (gid uid now : Nat) (op : Op)
    (hterm : terminalGroup (reach ops) gid = true) :
    applyOp (reach ops) (.join gid uid) = reach ops ∧
    applyOp (reach ops) (.leave gid uid) = reach ops ∧
    runDeadlineEval (reach ops) gid now = .ok (reach ops) ∧
    terminalGroup (applyOp (reach ops) op) gid = true := by
  have hs := inv_reach ops
  have hterm' := hterm
  unfold terminalGroup terminalGroupL at hterm'
  cases hfind : findGroupL (reach ops).groups gid with
  | none =>
    simp only [hfind] at hterm'
    exact Bool.noConfusion hterm'
  | some g =>
  simp only [hfind] at hterm'
  have hst : g.status ≠ GroupStatus.active := by simpa using hterm'
  have hjoin : runJoin (reach ops) gid uid = .error .groupNotActive := by
    unfold runJoin
    simp only [hfind]
    rw [if_pos hst]
  have hleave : runLeave (reach ops) gid uid = .error .groupNotActive := by
    unfold runLeave
    simp only [hfind]
    rw [if_pos hst]
  refine ⟨?_, ?_, ?_, terminalGroup_applyOp hs hterm op⟩
  · unfold applyOp
    rw [show runOp (reach ops) (Op.join gid uid) =
      Except.error EngineError.groupNotActive from hjoin]
  · unfold applyOp
    rw [show runOp (reach ops) (Op.leave gid uid) =
      Except.error EngineError.groupNotActive from hleave]
  · unfold runDeadlineEval
    simp only [hfind]
    rw [if_pos hst]

/-- Witness for C5: group 0 was cancelled; join and leave bounce off, the
deadline sweep is a no-op, and a further operation keeps it terminal. -/
theorem terminal_group_frozen_witness :
    applyOp (reach [.createProduct 100 [], .createGroup 0 1 2 3 0, .cancelGroup 0])
        (.join 0 7) =
      reach [.createProduct 100 [], .createGroup 0 1 2 3 0, .cancelGroup 0] ∧
    applyOp (reach [.createProduct 100 [], .createGroup 0 1 2 3 0, .cancelGroup 0])
        (.leave 0 7) =
      reach [.createProduct 100 [], .createGroup 0 1 2 3 0, .cancelGroup 0] ∧
    runDeadlineEval (reach [.createProduct 100 [], .createGroup 0 1 2 3 0, .cancelGroup 0])
        0 5 =
      .ok (reach [.createProduct 100 [], .createGroup 0 1 2 3 0, .cancelGroup 0]) ∧
    terminalGroup
        (applyOp (reach [.createProduct 100 [], .createGroup 0 1 2 3 0, .cancelGroup 0])
          (.deadlineEval 0 5)) 0 = true :=
  terminal_group_frozen [.createProduct 100 [], .createGroup 0 1 2 3 0, .cancelGroup 0]
    0 7 5 (.deadlineEval 0 5) (by decide)

/-- Whether `renderOrder` offers the "cancel order" button
(`part_002` line 825: `['pending','frozen'].includes(order.status)`). -/
def showCancelButton (st : OrderStatus) : Bool :=
  [OrderStatus.pending, OrderStatus.frozen].contains st

/-- Whether `renderOrder` offers the "create return" button
(`part_001` line 1333: `o.status==='delivered'`). -/
def showReturnButton (st : OrderStatus) : Bool :=
  st == OrderStatus.delivered

/-- C6: the user-facing cancel action exists exactly while the order is
`pending` or `frozen`; the cancel write path refuses every other status with
a `StateError`, and a successful cancel implies the order was `pending` or
`frozen`. -/
theorem order_cancel_availability :
    (∀ st : OrderStatus, showCancelButton st = true ↔
      (st = OrderStatus.pending ∨ st = OrderStatus.frozen)) ∧
    (∀ (s : DB) (oid : Nat) (o : Order), findOrderL s.orders oid = some o →
      ¬ (o.status = OrderStatus.pending ∨ o.status = OrderStatus.frozen) →
      runCancelOrder s oid = .error .stateError) ∧
    (∀ (s s' : DB) (oid : Nat), runCancelOrder s oid = .ok s' →
      ∃ o ∈ s.orders, o.id = oid ∧
        (o.status = OrderStatus.pending ∨ o.status = OrderStatus.frozen)) := by
  refine ⟨?_, ?_, ?_⟩
  · intro st
    cases st <;> simp [showCancelButton]
  · intro s oid o hfind hst
    unfold runCancelOrder
    simp only [hfind]
    rw [if_neg hst]
  · intro s s' oid h
    unfold runCancelOrder at h
    cases hfind : findOrderL s.orders oid with
    | none =>
      simp only [hfind] at h
      exact Except.noConfusion h
    | some o =>
      simp only [hfind] at h
      by_cases h1 : o.status = OrderStatus.pending ∨ o.status = OrderStatus.frozen
      · obtain ⟨ho, hoid⟩ := findOrderL_eq hfind
        exact ⟨o, ho, hoid, h1⟩
      · rw [if_neg h1] at h
        exact Except.noConfusion h

/-- Witness for C6: the button shows for a `frozen` order, a `delivered`
order cannot be cancelled through this path, and a successful cancel of a
`pending` order exposes its prior status. -/
theorem order_cancel_availability_witness :
    (showCancelButton OrderStatus.frozen = true ↔
      (OrderStatus.frozen = OrderStatus.pending ∨
        OrderStatus.frozen = OrderStatus.frozen)) ∧
    runCancelOrder
        { initDB with orders := [⟨0, 1, 0, 2, 100, 0, 100, .delivered⟩] } 0 =
      .error .stateError ∧
    ∃ o ∈ ({ initDB with orders := [⟨0, 1, 0, 2, 100, 0, 100, .pending⟩] } : DB).orders,
      o.id = 0 ∧ (o.status = OrderStatus.pending ∨ o.status = OrderStatus.frozen) :=
  ⟨order_cancel_availability.1 OrderStatus.frozen,
   order_cancel_availability.2.1
     { initDB with orders := [⟨0, 1, 0, 2, 100, 0, 100, .delivered⟩] } 0
     ⟨0, 1, 0, 2, 100, 0, 100, .delivered⟩ (by decide) (by decide),
   order_cancel_availability.2.2
     { initDB with orders := [⟨0, 1, 0, 2, 100, 0, 100, .pending⟩] }
     { initDB with
        orders := setOrderStatus 0 .cancelled [⟨0, 1, 0, 2, 100, 0, 100, .pending⟩] }
     0 (by decide)⟩

/-- C7: the return-creation action is offered exactly on a `delivered` order;
the write path refuses any other status, and a successful `createReturn`
prepends a row whose status is the schema default `pending`. -/
theorem return_creation_spec :
    (∀ st : OrderStatus, showReturnButton st = true ↔ st = OrderStatus.delivered) ∧
    (∀ (s : DB) (oid : Nat) (o : Order) (r : ReturnReason) (d : String),
      findOrderL s.orders oid = some o → o.status ≠ OrderStatus.delivered →
      runCreateReturn s oid r d = .error .stateError) ∧
    (∀ (s s' : DB) (oid : Nat) (r : ReturnReason) (d : String),
      runCreateReturn s oid r d = .ok s' →
      (∃ o ∈ s.orders, o.id = oid ∧ o.status = OrderStatus.delivered) ∧
      s'.returns = ⟨s.nextReturnId, oid, r, d, .pending⟩ :: s.returns) := by
  refine ⟨?_, ?_, ?_⟩
  · intro st
    cases st <;> simp [showReturnButton]
  · intro s oid o r d hfind hst
    unfold runCreateReturn
    simp only [hfind]
    rw [if_pos hst]
  · intro s s' oid r d h
    unfold runCreateReturn at h
    cases hfind : findOrderL s.orders oid with
    | none =>
      simp only [hfind] at h
      exact Except.noConfusion h
    | some o =>
      simp only [hfind] at h
      by_cases h1 : o.status ≠ OrderStatus.delivered
      · rw [if_pos h1] at h
        exact Except.noConfusion h
      rw [if_neg h1] at h
      injection h with h
      obtain ⟨ho, hoid⟩ := findOrderL_eq hfind
      refine ⟨⟨o, ho, hoid, not_not.mp h1⟩, ?_⟩
      rw [← h]

/-- Witness for C7: a return on a delivered order is created in `pending`;
the button shows only for `delivered`. -/
theorem return_creation_spec_witness :
    (showReturnButton OrderStatus.delivered = true ↔
      OrderStatus.delivered = OrderStatus.delivered) ∧
    (∃ o ∈ ({ initDB with orders := [⟨0, 1, 0, 2, 100, 0, 100, .delivered⟩] } : DB).orders,
      o.id = 0 ∧ o.status = OrderStatus.delivered) ∧
    ({ initDB with
        orders := [⟨0, 1, 0, 2, 100, 0, 100, .delivered⟩]
        returns := [⟨0, 0, .defect, "broken", .pending⟩]
        nextReturnId := 1 } : DB).returns =
      ⟨0, 0, .defect, "broken", .pending⟩ ::
        ({ initDB with orders := [⟨0, 1, 0, 2, 100, 0, 100, .delivered⟩] } : DB).returns :=
  ⟨return_creation_spec.1 OrderStatus.delivered,
   (return_creation_spec.2.2
     { initDB with orders := [⟨0, 1, 0, 2, 100, 0, 100, .delivered⟩] }
     { initDB with
        orders := [⟨0, 1, 0, 2, 100, 0, 100, .delivered⟩]
        returns := [⟨0, 0, .defect, "broken", .pending⟩]
        nextReturnId := 1 }
     0 .defect "broken" (by decide)).1,
   (return_creation_spec.2.2
     { initDB with orders := [⟨0, 1, 0, 2, 100, 0, 100, .delivered⟩] }
     { initDB with
        orders := [⟨0, 1, 0, 2, 100, 0, 100, .delivered⟩]
        returns := [⟨0, 0, .defect, "broken", .pending⟩]
        nextReturnId := 1 }
     0 .defect "broken" (by decide)).2⟩

/-- C8: every order in every reachable state satisfies
`total_amount = final_price + delivery_cost`; the checkout summary recomputes
the total as the current unit price plus the delivery cost (0 for pickup,
300 for courier), and a successful checkout snapshots the group's current
unit price into `final_price` with that total. -/
theorem order_total_spec :
    (∀ ops : List Op, ∀ o ∈ (reach ops).orders,
      o.total_amount = o.final_price + o.delivery_cost) ∧
    deliveryCostFor DeliveryType.pickup = 0 ∧
    (∀ price dcost : Rat, updateTotalAmount price dcost = price + dcost) ∧
    (∀ (s s' : DB) (gid uid aid : Nat) (dt : DeliveryType),
      runCreateOrder s gid uid aid dt = .ok s' →
      ∃ cp : Rat, currentPriceOf s gid = some cp ∧
        s'.orders = ⟨s.nextOrderId, uid, gid, aid, cp, deliveryCostFor dt,
          cp + deliveryCostFor dt, .pending⟩ :: s.orders) := by
  refine ⟨?_, rfl, fun price dcost => rfl, ?_⟩
  · intro ops o ho
    exact (inv_reach ops).order_total o ho
  · intro s s' gid uid aid dt h
    unfold runCreateOrder at h
    cases hfind : findGroupL s.groups gid with
    | none =>
      simp only [hfind] at h
      exact Except.noConfusion h
    | some g =>
      simp only [hfind] at h
      by_cases h1 : g.status ≠ GroupStatus.active ∧ g.status ≠ GroupStatus.completed
      · rw [if_pos h1] at h
        exact Except.noConfusion h
      rw [if_neg h1] at h
      cases hfp : findProductL s.products g.product_id with
      | none =>
        simp only [hfp] at h
        exact Except.noConfusion h
      | some p =>
        simp only [hfp] at h
        injection h with h
        refine ⟨resolvePrice p.base_price p.price_tiers g.current_count.toNat, ?_, ?_⟩
        · unfold currentPriceOf
          simp only [hfind, hfp]
        · rw [← h]

/-- The spec's §8 scenario: base price 25000, tiers (3 → 22000), (5 → 19000),
min 3, max 5; three distinct users join (completing the group). -/
def scenarioDB : DB :=
  reach [.createProduct 25000 [⟨3, 22000⟩, ⟨5, 19000⟩],
    .createGroup 0 1 3 5 99, .join 0 1, .join 0 2, .join 0 3]

/-- Witness for C8: checkout by courier in the §8 scenario snapshots the
current price (22000) and totals it with the 300 courier cost. -/
theorem order_total_spec_witness :
    updateTotalAmount 22000 300 = 22000 + 300 ∧
    ∃ cp : Rat,
      currentPriceOf scenarioDB 0 = some cp ∧
      (applyOp scenarioDB (.createOrder 0 1 4 .courier)).orders =
        ⟨scenarioDB.nextOrderId, 1, 0, 4, cp, deliveryCostFor .courier,
          cp + deliveryCostFor .courier, .pending⟩ :: scenarioDB.orders := by
  refine ⟨order_total_spec.2.2.1 22000 300, ?_⟩
  have h : runCreateOrder scenarioDB 0 1 4 DeliveryType.courier =
      .ok (applyOp scenarioDB (Op.createOrder 0 1 4 DeliveryType.courier)) := by
    cases hR : runCreateOrder scenarioDB 0 1 4 DeliveryType.courier with
    | ok s2 =>
      unfold applyOp
      rw [show runOp scenarioDB (Op.createOrder 0 1 4 DeliveryType.courier) =
        Except.ok s2 from hR]
    | error e =>
      unfold runCreateOrder at hR
      simp only [show findGroupL scenarioDB.groups 0 =
        some ⟨0, 0, 1, .completed, 3, 5, 3, 99⟩ from by decide] at hR
      rw [if_neg (by decide)] at hR
      simp only [show findProductL scenarioDB.products 0 =
        some ⟨0, 25000, [⟨3, 22000⟩, ⟨5, 19000⟩]⟩ from by decide] at hR
      exact Except.noConfusion hR
  exact order_total_spec.2.2.2 scenarioDB
    (applyOp scenarioDB (.createOrder 0 1 4 .courier)) 0 1 4 .courier h

end Drujno
